import Mathlib

/-
Verification of the github-activity-reporter repository.

This file gives a shallow embedding, in Lean 4, of the data model and the
operations of the repository (an aggregator of GitHub activity), translated
from the Python sources:
  src/src/renderer.py, src/src/state.py, src/src/strategies.py,
  src/src/report_strategies.py, src/src/reporter.py, src/github_report.py.
Network calls (the GraphQL client and the PyGithub search calls) are
abstracted as oracle functions passed to the embedded operations: the
Python code issues a request and receives either a decoded payload or a
null result, which the oracle models as an Option-valued function.
Timestamps appear in two forms, mirroring the two ways the sources compare
them: the inbox path compares parsed instants (dateutil isoparse followed
by a datetime comparison), modeled as Nat epoch seconds; the report path
compares only calendar dates extracted from the stamp, modeled by an
explicit Timestamp structure that keeps the written date, time of day and
offset separate.
-/

/-! ## Generic helpers: Python semantics -/

/-- Python truthiness of an optional string: None and the empty string are
falsy, every other string is truthy (used for the username guards). -/
def pyTruthyStr : Option String → Bool
  | none => false
  | some s => !(s = "")

/-- Worker for splitOnChar: walks the character list, cutting at the
separator, like the Python str.split method with a one-character separator. -/
def splitOnCharAux (sep : Char) : List Char → List Char → List String
  | [], acc => [String.mk acc.reverse]
  | c :: cs, acc =>
    if c = sep then String.mk acc.reverse :: splitOnCharAux sep cs []
    else splitOnCharAux sep cs (c :: acc)

/-- Python str.split with a one-character separator: always returns at
least one piece, and empty pieces are kept. -/
def splitOnChar (sep : Char) (s : String) : List String :=
  splitOnCharAux sep s.data []

/-- The strategies unpack a configured repository entry with
owner, name = repo_fullname.split("/"); the unpacking raises ValueError
(and the entry is skipped) unless the split yields exactly two pieces. -/
def parseRepo (s : String) : Option (String × String) :=
  match splitOnChar '/' s with
  | [o, n] => some (o, n)
  | _ => none

/-- First line of a commit message: message.split("\n")[0] in the sources.
Python split always returns a nonempty list, so index 0 is total. -/
def firstLine (s : String) : String :=
  (splitOnChar '\n' s).headD ""

/-- Python dict assignment d[k] = v on an insertion-ordered dictionary,
modeled on an association list: an existing binding for the key is
overwritten in place (keeping its position), a new key is appended. -/
def pyDictSet {κ ν : Type} [DecidableEq κ] (d : List (κ × ν)) (k : κ) (v : ν) :
    List (κ × ν) :=
  if d.any (fun p => decide (p.1 = k)) then
    d.map (fun p => if p.1 = k then (k, v) else p)
  else d ++ [(k, v)]

/-- Lookup in a parsed JSON object or Python dict (dict.get): the value of
the last binding of the key, if any. -/
def pyDictGet {κ ν : Type} [DecidableEq κ] (d : List (κ × ν)) (k : κ) : Option ν :=
  d.foldl (fun acc p => if p.1 = k then some p.2 else acc) none

/-- Keyed deduplication keeping the first occurrence of each key, with an
explicit set of already-seen keys: models both list(set(repos)) (whose
iteration order the Python sources never rely on) and the seen-number set
of the REST pull-request pass. -/
def dedupByKey {α β : Type} (key : α → β) [DecidableEq β] :
    List α → List β → List α
  | [], _ => []
  | x :: xs, seen =>
    if key x ∈ seen then dedupByKey key xs seen
    else x :: dedupByKey key xs (key x :: seen)

/-! ## Calendar dates and timestamps (report path) -/

/-- A calendar date as produced by datetime.date. -/
structure Date where
  year : Nat
  month : Nat
  day : Nat
deriving DecidableEq

/-- Python comparison of datetime.date values: lexicographic on
(year, month, day). -/
def Date.leb (a b : Date) : Bool :=
  if a.year = b.year then
    if a.month = b.month then a.day ≤ b.day
    else a.month < b.month
  else a.year < b.year

/-- A parsed ISO-8601 timestamp as produced by dateutil isoparse, keeping
the fields as written in the stamp: calendar date, time of day and UTC
offset in minutes.  The .date() accessor used by the report path returns
the date field as written (no time zone conversion). -/
structure Timestamp where
  date : Date
  hour : Nat
  minute : Nat
  second : Nat
  offsetMinutes : Int
deriving DecidableEq

/-! ## Renderer (src/src/renderer.py) -/

/-- An activity item as consumed by the renderer.  Only the url field is
read by the deduplication step; the other fields ride along. -/
structure RenderItem where
  url : String
  repository : String
  updatedAt : String
  title : String
deriving DecidableEq

/-- The deduplication step of Renderer.render: the dict comprehension
unique_items = (a dict keyed by item url, built left to right).values().
Later items overwrite earlier bindings of the same url in place, and the
values are read back in insertion order of the keys.  Renderer.render then
sorts this list by repository and update time before display. -/
def Renderer.uniqueItems (items : List RenderItem) : List RenderItem :=
  (items.foldl (fun d it => pyDictSet d it.url it) []).map Prod.snd

/-! ## Run state (src/src/state.py) -/

/-- The observable states of the persisted state file, as distinguished by
StateManager.get_last_run: absent, unreadable or unparseable (IOError or
json.JSONDecodeError, both caught), or parsed as a JSON object with string
values. -/
inductive FileState where
  | missing : FileState
  | corrupt : FileState
  | object : List (String × String) → FileState
deriving DecidableEq

/-- StateManager.get_last_run: if the state file exists and parses, return
data.get("last_run") (which is Python None when the key is absent);
on a missing or unreadable or unparseable file fall through to the default
watermark, the ISO string for now minus 24 hours.  The clock read
(datetime.now minus timedelta(hours=24)).isoformat() is abstracted as the
defaultIso argument. -/
def StateManager.get_last_run (fs : FileState) (defaultIso : String) :
    Option String :=
  match fs with
  | .object d => pyDictGet d "last_run"
  | .missing => some defaultIso
  | .corrupt => some defaultIso

/-- StateManager.update_last_run writes the object with the single key
"last_run" bound to the current time (abstracted as nowIso). -/
def StateManager.update_last_run (nowIso : String) : List (String × String) :=
  [("last_run", nowIso)]

/-! ## Inbox strategies (src/src/strategies.py) -/

/-- An item of the inbox path (issue, pull request or discussion node of
the watch queries).  updatedAt is the parsed instant (epoch seconds): the
inbox path only ever compares parsed timestamps chronologically. -/
structure InboxItem where
  url : String
  title : String
  repository : String
  number : Nat
  updatedAt : Nat
  author : Option String
deriving DecidableEq

/-- The payload of the FullWatchStrategy repository query: the first 20
most recently updated issues, pull requests and discussions. -/
structure WatchRepoData where
  issues : List InboxItem
  pullRequests : List InboxItem
  discussions : List InboxItem
deriving DecidableEq

/-- An inbox item after the strategy stamped its kind into the mutable
dict (item["type"] = "Issue" or "PR" or "Discussion"). -/
structure TaggedItem where
  item : InboxItem
  type : String
deriving DecidableEq

/-- Strategy._is_new: an item is new when its parsed updatedAt instant is
strictly later than the parsed last-run watermark. -/
def Strategy.is_new (lastRun : Nat) (updatedAt : Nat) : Bool :=
  lastRun < updatedAt

/-- The per-repository body of FullWatchStrategy.run: the issues, then the
pull requests, then the discussions of the payload, each filtered by
Strategy._is_new and tagged with its kind. -/
def FullWatchStrategy.processRepo (lastRun : Nat) (rd : WatchRepoData) :
    List TaggedItem :=
  (rd.issues.filter (fun i => Strategy.is_new lastRun i.updatedAt)).map
      (fun i => ⟨i, "Issue"⟩)
    ++ (rd.pullRequests.filter (fun i => Strategy.is_new lastRun i.updatedAt)).map
      (fun i => ⟨i, "PR"⟩)
    ++ (rd.discussions.filter (fun i => Strategy.is_new lastRun i.updatedAt)).map
      (fun i => ⟨i, "Discussion"⟩)

/-- Configuration as read from config.yaml: the recognized keys of the
strategy layer.  A missing username key is None. -/
structure Config where
  watch_all : List String
  watch_mentions : List String
  username : Option String
deriving DecidableEq

/-- FullWatchStrategy.run: an empty watch_all list returns the empty
result at once; otherwise each entry is split as owner/name (entries that
do not split into exactly two pieces are skipped), the repository query is
executed (a null or repository-less payload is skipped), and the payload
is filtered and tagged.  fetch is the GraphQL client oracle. -/
def FullWatchStrategy.run (config : Config) (lastRun : Nat)
    (fetch : String → String → Option WatchRepoData) : List TaggedItem :=
  if config.watch_all.isEmpty then []
  else
    config.watch_all.flatMap (fun repoFullname =>
      match parseRepo repoFullname with
      | none => []
      | some (owner, name) =>
        match fetch owner name with
        | none => []
        | some rd => FullWatchStrategy.processRepo lastRun rd)

/-- A node of the MentionWatchStrategy federated search result.  The
strategy classifies a node as a pull request exactly when the reviews key
is present in the payload (only the PR fragment selects reviews). -/
structure MentionNode where
  item : InboxItem
  hasReviews : Bool
deriving DecidableEq

/-- MentionWatchStrategy.run: returns the empty list at once when the
watch_mentions list is empty or the username is falsy; otherwise issues
one federated search (abstracted as searchResult: None models a failed or
search-less payload) and tags each node PR or Issue by the presence of the
reviews key. -/
def MentionWatchStrategy.run (config : Config)
    (searchResult : Option (List MentionNode)) : List TaggedItem :=
  if config.watch_mentions.isEmpty || !pyTruthyStr config.username then []
  else
    match searchResult with
    | none => []
    | some nodes =>
      nodes.map (fun n => ⟨n.item, if n.hasReviews then "PR" else "Issue"⟩)

/-! ## Report strategies (src/src/report_strategies.py) -/

/-- An author or actor node of the report fragments: a login.  A null
author (ghost or deleted account) is modeled as None around this. -/
structure Actor where
  login : String
deriving DecidableEq

/-- A comment node of the report fragments: the fragments select only the
author login of each of the last 20 comments, no timestamp. -/
structure CommentNode where
  author : Option Actor
deriving DecidableEq

/-- A review node of the report PR fragment: author, review state and
creation time. -/
structure ReviewNode where
  author : Option Actor
  state : String
  createdAt : Timestamp
deriving DecidableEq

/-- A CLOSED_EVENT or MERGED_EVENT timeline node: the acting user (null
for ghost actors) and the event time. -/
structure TimelineEventNode where
  actor : Option Actor
  createdAt : Timestamp
deriving DecidableEq

/-- A commit node of the report PR fragment: oid, url, message and the
login of the linked GitHub user of the commit author; the author or its
user link may be null (bot or unlinked commits), collapsed here into one
Option since the source tests both with one truthiness chain. -/
structure CommitNode where
  oid : String
  url : String
  message : String
  authorUserLogin : Option String
deriving DecidableEq

/-- A pull request node of the ReportPRFields fragment.  mergedAt is kept
as the raw payload value (null or an ISO string) because the reporter
tests it for truthiness, not for a parsed value. -/
structure ReportPR where
  number : Nat
  title : String
  url : String
  state : String
  mergedAt : Option String
  createdAt : Timestamp
  updatedAt : Timestamp
  author : Option Actor
  commits : List CommitNode
  reviews : List ReviewNode
  comments : List CommentNode
  timelineItems : List TimelineEventNode
deriving DecidableEq

/-- An issue node of the ReportIssueFields fragment. -/
structure ReportIssue where
  number : Nat
  title : String
  url : String
  state : String
  createdAt : Timestamp
  updatedAt : Timestamp
  author : Option Actor
  comments : List CommentNode
  timelineItems : List TimelineEventNode
deriving DecidableEq

/-- The payload of one report repository query: issue and pull request
nodes. -/
structure ReportRepoData where
  issues : List ReportIssue
  pullRequests : List ReportPR
deriving DecidableEq

/-- ReportDataStrategy._is_in_period: a falsy date string is never in the
period; otherwise the stamp is parsed, its calendar date (as written in
the stamp, per isoparse followed by .date()) is taken, and tested for
inclusive membership between the start and end dates of the report. -/
def ReportDataStrategy.is_in_period (startDate endDate : Date)
    (createdAt : Option Timestamp) : Bool :=
  match createdAt with
  | none => false
  | some ts => Date.leb startDate ts.date && Date.leb ts.date endDate

/-- The self-authored test both report strategies use to skip items of the
requesting user: the author node is present and its login equals the
username. -/
def selfAuthored (username : String) (author : Option Actor) : Bool :=
  match author with
  | some a => a.login = username
  | none => false

/-- The results shape of AuthoredActivityStrategy.run. -/
structure AuthoredResults where
  pull_requests : List ReportPR
  issues : List ReportIssue
deriving DecidableEq

/-- The per-repository body of AuthoredActivityStrategy.run: issues (which
the query already filtered by author and since on the server side) are
kept when created in the period; pull requests (which the query surface
cannot filter by author) are kept when the author node is present with the
username login and the creation date is in the period. -/
def AuthoredActivityStrategy.processRepo (username : String)
    (startDate endDate : Date) (rd : ReportRepoData) : AuthoredResults where
  pull_requests := rd.pullRequests.filter (fun pr =>
    selfAuthored username pr.author
      && ReportDataStrategy.is_in_period startDate endDate (some pr.createdAt))
  issues := rd.issues.filter (fun i =>
    ReportDataStrategy.is_in_period startDate endDate (some i.createdAt))

/-- One repository step of AuthoredActivityStrategy.run: entries that do
not split as owner/name are skipped, as are null or repository-less
payloads. -/
def AuthoredActivityStrategy.repoResults (username : String)
    (startDate endDate : Date)
    (fetch : String → String → Option ReportRepoData) (repoFullname : String) :
    AuthoredResults :=
  match parseRepo repoFullname with
  | none => ⟨[], []⟩
  | some (owner, name) =>
    match fetch owner name with
    | none => ⟨[], []⟩
    | some rd => AuthoredActivityStrategy.processRepo username startDate endDate rd

/-- AuthoredActivityStrategy.run: the repository list is the union (via
list(set(..))) of watch_all and watch_mentions; an empty list or a falsy
username returns the empty results at once, before any query.  Each
repository then contributes its processed results in loop order. -/
def AuthoredActivityStrategy.run (config : Config) (startDate endDate : Date)
    (fetch : String → String → Option ReportRepoData) : AuthoredResults :=
  let repos := dedupByKey id (config.watch_all ++ config.watch_mentions) []
  if repos.isEmpty || !pyTruthyStr config.username then ⟨[], []⟩
  else
    let username := config.username.getD ""
    { pull_requests := repos.flatMap (fun r =>
        (AuthoredActivityStrategy.repoResults username startDate endDate fetch r).pull_requests)
      issues := repos.flatMap (fun r =>
        (AuthoredActivityStrategy.repoResults username startDate endDate fetch r).issues) }

/-- The four maintainer-work buckets of MaintainerActivityStrategy.run. -/
structure MaintainerBuckets where
  prs_reviewed : List ReportPR
  prs_closed_merged : List ReportPR
  issues_engaged : List ReportIssue
  issues_closed : List ReportIssue
deriving DecidableEq

/-- The empty maintainer buckets. -/
def MaintainerBuckets.empty : MaintainerBuckets :=
  ⟨[], [], [], []⟩

/-- Some review of the pull request was written by the user inside the
report period (the review loop appends the PR and breaks at the first
such review). -/
def prReviewedByUser (username : String) (startDate endDate : Date)
    (pr : ReportPR) : Bool :=
  pr.reviews.any (fun r =>
    (match r.author with
      | some a => a.login = username
      | none => false)
    && ReportDataStrategy.is_in_period startDate endDate (some r.createdAt))

/-- Some CLOSED_EVENT or MERGED_EVENT of the pull request was acted by the
user inside the report period. -/
def prClosedMergedByUser (username : String) (startDate endDate : Date)
    (pr : ReportPR) : Bool :=
  pr.timelineItems.any (fun ev =>
    (match ev.actor with
      | some a => a.login = username
      | none => false)
    && ReportDataStrategy.is_in_period startDate endDate (some ev.createdAt))

/-- Some fetched last comment of the issue carries the username as author
login.  The comment fragment selects no timestamp, so no date of the
comment itself can be or is consulted. -/
def issueCommentedByUser (username : String) (issue : ReportIssue) : Bool :=
  issue.comments.any (fun c =>
    match c.author with
    | some a => a.login = username
    | none => false)

/-- Some CLOSED_EVENT of the issue was acted by the user inside the report
period. -/
def issueClosedByUser (username : String) (startDate endDate : Date)
    (issue : ReportIssue) : Bool :=
  issue.timelineItems.any (fun ev =>
    (match ev.actor with
      | some a => a.login = username
      | none => false)
    && ReportDataStrategy.is_in_period startDate endDate (some ev.createdAt))

/-- The per-repository body of MaintainerActivityStrategy.run: pull
requests and issues authored by the user are skipped; a remaining PR joins
prs_reviewed or prs_closed_merged per the review and timeline scans, and a
remaining issue joins issues_engaged when the user commented on it at all
and the issue itself was updated in the period, and issues_closed per the
timeline scan. -/
def MaintainerActivityStrategy.processRepo (username : String)
    (startDate endDate : Date) (rd : ReportRepoData) : MaintainerBuckets where
  prs_reviewed := rd.pullRequests.filter (fun pr =>
    !selfAuthored username pr.author && prReviewedByUser username startDate endDate pr)
  prs_closed_merged := rd.pullRequests.filter (fun pr =>
    !selfAuthored username pr.author && prClosedMergedByUser username startDate endDate pr)
  issues_engaged := rd.issues.filter (fun i =>
    !selfAuthored username i.author && issueCommentedByUser username i
      && ReportDataStrategy.is_in_period startDate endDate (some i.updatedAt))
  issues_closed := rd.issues.filter (fun i =>
    !selfAuthored username i.author && issueClosedByUser username startDate endDate i)

/-- One repository step of MaintainerActivityStrategy.run, skipping
malformed entries and null payloads. -/
def MaintainerActivityStrategy.repoBuckets (username : String)
    (startDate endDate : Date)
    (fetch : String → String → Option ReportRepoData) (repoFullname : String) :
    MaintainerBuckets :=
  match parseRepo repoFullname with
  | none => MaintainerBuckets.empty
  | some (owner, name) =>
    match fetch owner name with
    | none => MaintainerBuckets.empty
    | some rd => MaintainerActivityStrategy.processRepo username startDate endDate rd

/-- MaintainerActivityStrategy.run: same repository union and guard as the
authored strategy, then each repository appends its per-repository buckets
in loop order. -/
def MaintainerActivityStrategy.run (config : Config) (startDate endDate : Date)
    (fetch : String → String → Option ReportRepoData) : MaintainerBuckets :=
  let repos := dedupByKey id (config.watch_all ++ config.watch_mentions) []
  if repos.isEmpty || !pyTruthyStr config.username then MaintainerBuckets.empty
  else
    let username := config.username.getD ""
    { prs_reviewed := repos.flatMap (fun r =>
        (MaintainerActivityStrategy.repoBuckets username startDate endDate fetch r).prs_reviewed)
      prs_closed_merged := repos.flatMap (fun r =>
        (MaintainerActivityStrategy.repoBuckets username startDate endDate fetch r).prs_closed_merged)
      issues_engaged := repos.flatMap (fun r =>
        (MaintainerActivityStrategy.repoBuckets username startDate endDate fetch r).issues_engaged)
      issues_closed := repos.flatMap (fun r =>
        (MaintainerActivityStrategy.repoBuckets username startDate endDate fetch r).issues_closed) }

/-! ## GraphQL report builder (src/src/reporter.py) -/

/-- A commit entry of the shaped contributions: short sha, url and the
first message line. -/
structure CommitSummary where
  sha : String
  url : String
  message : String
deriving DecidableEq

/-- A shaped pull request contribution entry. -/
structure PRContribution where
  number : Nat
  url : String
  title : String
  status : String
  commits : List CommitSummary
deriving DecidableEq

/-- A shaped issue contribution entry. -/
structure IssueContribution where
  number : Nat
  url : String
  title : String
  status : String
deriving DecidableEq

/-- The contributions part of the report data.  The commits list is the
work-in-progress list; the GraphQL builder initializes it empty and never
fills it. -/
structure Contributions where
  pull_requests : List PRContribution
  issues : List IssueContribution
  commits : List CommitSummary
deriving DecidableEq

/-- The report structure built by collect_data_graphql.  The maintainer
buckets keep the raw node types here, since the GraphQL builder never
shapes any entry into them. -/
structure GraphQLReportData where
  username : String
  periodStart : Date
  periodEnd : Date
  repositories : List String
  contributions : Contributions
  maintainer_work : MaintainerBuckets
deriving DecidableEq

/-- The pull-request status classification of collect_data_graphql:
merged when the raw mergedAt payload value is truthy (a nonempty string),
else closed when state is CLOSED, else open. -/
def prStatus (mergedAt : Option String) (state : String) : String :=
  if pyTruthyStr mergedAt then "merged"
  else if state = "CLOSED" then "closed"
  else "open"

/-- The commit sub-list filter of collect_data_graphql: a commit is kept
when its author has a linked user whose login is the requesting username,
shaped as short sha (first 7 characters of the oid), url and first
message line. -/
def shapeCommit (username : String) (c : CommitNode) : Option CommitSummary :=
  match c.authorUserLogin with
  | some login =>
    if login = username then some ⟨c.oid.take 7, c.url, firstLine c.message⟩
    else none
  | none => none

/-- The pull-request shaping of collect_data_graphql. -/
def shapePR (username : String) (pr : ReportPR) : PRContribution :=
  ⟨pr.number, pr.url, pr.title, prStatus pr.mergedAt pr.state,
    pr.commits.filterMap (shapeCommit username)⟩

/-- The issue shaping of collect_data_graphql. -/
def shapeIssue (issue : ReportIssue) : IssueContribution :=
  ⟨issue.number, issue.url, issue.title,
    if issue.state = "CLOSED" then "closed" else "open"⟩

/-- collect_data_graphql: after fetching the viewer login (abstracted as
the username argument, given that the viewer query succeeded), the
function builds the config with watch_all set to the requested repos and
watch_mentions empty, runs only AuthoredActivityStrategy against the
client oracle, shapes its pull requests and issues into contributions, and
leaves every maintainer_work bucket at its initial empty value. -/
def collect_data_graphql (username : String) (startDate endDate : Date)
    (repos : List String) (fetch : String → String → Option ReportRepoData) :
    GraphQLReportData :=
  let config : Config := ⟨repos, [], some username⟩
  let data := AuthoredActivityStrategy.run config startDate endDate fetch
  { username := username
    periodStart := startDate
    periodEnd := endDate
    repositories := repos
    contributions :=
      ⟨data.pull_requests.map (shapePR username), data.issues.map shapeIssue, []⟩
    maintainer_work := MaintainerBuckets.empty }

/-! ## REST search reporter (src/github_report.py) -/

/-- An item of the REST issue search results (PyGithub Issue): userLogin
is item.user.login (the author), isPullRequest the truthiness of the
item.pull_request attribute, mergedAt the merge instant of that attribute
and createdAt the creation instant (both as epoch seconds, since the REST
path only compares and tests them). -/
structure RestSearchItem where
  number : Nat
  htmlUrl : String
  title : String
  state : String
  userLogin : String
  isPullRequest : Bool
  mergedAt : Option Nat
  createdAt : Nat
deriving DecidableEq

/-- A commit of a fetched pull request (repo.get_pull(n).get_commits()). -/
structure PRCommit where
  sha : String
  htmlUrl : String
  message : String
  authorLogin : Option String
deriving DecidableEq

/-- A commit of the raw commit search results. -/
structure RestCommitItem where
  sha : String
  htmlUrl : String
  message : String
  repoFullName : String
deriving DecidableEq

/-- The pull-request status classification of the REST authored pass:
merged when pr.pull_request.merged_at is set, else closed when the state
is closed, else open. -/
def restPRStatus (mergedAt : Option Nat) (state : String) : String :=
  if mergedAt.isSome then "merged"
  else if state = "closed" then "closed"
  else "open"

/-- The pull requests the REST authored pass enumerates: the search
results sorted by creation date, newest first (Python sorted is stable),
then deduplicated by PR number via the seen set, keeping the first
survivor of each number. -/
def enumeratedPRs (prs : List RestSearchItem) : List RestSearchItem :=
  dedupByKey (fun pr => pr.number)
    (prs.mergeSort (fun a b => Nat.ble b.createdAt a.createdAt)) []

/-- The pr_commit_shas set: over each enumerated pull request, the commit
list is fetched (commitsOf abstracts the nested get_repo, get_pull and
get_commits calls; None models the except-pass on any failure, after
which no sha of that PR is recorded) and every commit sha is added,
before and independent of the author filter of the display list. -/
def collectPRCommitShas (prs : List RestSearchItem)
    (commitsOf : RestSearchItem → Option (List PRCommit)) : List String :=
  (enumeratedPRs prs).flatMap (fun pr =>
    match commitsOf pr with
    | none => []
    | some cl => cl.map (fun c => c.sha))

/-- The orphan-commit pass of collect_github_data: a raw search commit is
work in progress exactly when its sha is not in the pr_commit_shas set. -/
def orphanCommits (commits : List RestCommitItem) (prCommitShas : List String) :
    List RestCommitItem :=
  commits.filter (fun c => !prCommitShas.contains c.sha)

/-- The prs_reviewed pass of collect_github_data: the commenter search
results (kept when the item is a pull request and not authored by the
user) and the reviewed-by search results (kept when not authored by the
user) are added to a set of (number, url, title, state) tuples, then read
out into the bucket.  The Python set is modeled as insertion-ordered
deduplication; the sources never rely on set iteration order. -/
def restPRsReviewed (username : String)
    (commenterPRs reviewedByPRs : List RestSearchItem) :
    List (Nat × String × String × String) :=
  dedupByKey id
    (((commenterPRs.filter (fun pr =>
          pr.isPullRequest && !(pr.userLogin = username))).map (fun pr =>
            (pr.number, pr.htmlUrl, pr.title, pr.state)))
      ++ ((reviewedByPRs.filter (fun pr => !(pr.userLogin = username))).map
            (fun pr => (pr.number, pr.htmlUrl, pr.title, pr.state)))) []

/-- The prs_closed_merged pass of collect_github_data: first every closed
PR of the author search is entered into the dict keyed by number, with a
merged-or-closed (author) status and no author filter; then each closed
reviewed-by result not authored by the user and not already present is
added with a (reviewed) status; the bucket reads the dict out in key
insertion order. -/
def restPRsClosedMerged (username : String)
    (closedAuthoredPRs reviewedClosedPRs : List RestSearchItem) :
    List (Nat × String × String × String) :=
  let d1 := closedAuthoredPRs.foldl (fun d pr =>
    pyDictSet d pr.number
      (pr.htmlUrl, pr.title,
        if pr.mergedAt.isSome then "merged (author)" else "closed (author)")) []
  let d2 := reviewedClosedPRs.foldl (fun d pr =>
    if !(pr.userLogin = username) && (pyDictGet d pr.number).isNone then
      d ++ [(pr.number,
        (pr.htmlUrl, pr.title,
          if pr.mergedAt.isSome then "merged (reviewed)" else "closed (reviewed)"))]
    else d) d1
  d2.map (fun p => (p.1, p.2.1, p.2.2.1, p.2.2.2))

/-- The value kept per engaged issue: url, title, state of the first
writer, and the growing interactions set (modeled insertion ordered). -/
structure EngagedValue where
  url : String
  title : String
  state : String
  interactions : List String
deriving DecidableEq

/-- One update of the issues_engaged dict: a self-authored issue is
skipped; otherwise the entry is created on first sight (keeping the url,
title and state of that first writer) and the pass tag is added to its
interactions set. -/
def engagedAdd (username tag : String) (d : List (Nat × EngagedValue))
    (issue : RestSearchItem) : List (Nat × EngagedValue) :=
  if issue.userLogin = username then d
  else if d.any (fun p => decide (p.1 = issue.number)) then
    d.map (fun p =>
      if p.1 = issue.number then
        (p.1, ⟨p.2.url, p.2.title, p.2.state,
          if p.2.interactions.contains tag then p.2.interactions
          else p.2.interactions ++ [tag]⟩)
      else p)
  else d ++ [(issue.number, ⟨issue.htmlUrl, issue.title, issue.state, [tag]⟩)]

/-- One pass of the issues_engaged collection over one search result
list. -/
def engagedPass (username tag : String) (d : List (Nat × EngagedValue))
    (issues : List RestSearchItem) : List (Nat × EngagedValue) :=
  issues.foldl (engagedAdd username tag) d

/-- The issues_engaged pass of collect_github_data: commenter, mentions
and assignee searches in order, each adding its tag to non-self-authored
issues, then the dict is read out into the bucket. -/
def restIssuesEngaged (username : String)
    (commentedIssues mentionedIssues assignedIssues : List RestSearchItem) :
    List (Nat × EngagedValue) :=
  engagedPass username "assigned"
    (engagedPass username "mentioned"
      (engagedPass username "commented" [] commentedIssues) mentionedIssues)
    assignedIssues

/-! ## Concrete scenarios used by witnesses and counterexamples -/

/-- Start of a concrete report period. -/
def periodStart0 : Date := ⟨2024, 1, 1⟩

/-- End of a concrete report period. -/
def periodEnd0 : Date := ⟨2024, 1, 31⟩

/-- A pull request authored by bob and reviewed by alice inside the
period: maintainer activity of alice on a non-authored item. -/
def reviewedPR0 : ReportPR :=
  { number := 5
    title := "Fix crash"
    url := "https://example.test/o/r/pull/5"
    state := "OPEN"
    mergedAt := none
    createdAt := ⟨⟨2024, 1, 10⟩, 12, 0, 0, 0⟩
    updatedAt := ⟨⟨2024, 1, 12⟩, 9, 0, 0, 0⟩
    author := some ⟨"bob"⟩
    commits := []
    reviews := [⟨some ⟨"alice"⟩, "APPROVED", ⟨⟨2024, 1, 12⟩, 9, 0, 0, 0⟩⟩]
    comments := []
    timelineItems := [] }

/-- A client oracle for the single repository o/r whose payload holds
reviewedPR0. -/
def fetch0 : String → String → Option ReportRepoData := fun owner name =>
  if owner = "o" && name = "r" then some ⟨[], [reviewedPR0]⟩ else none

/-- A closed pull request of the REST search that alice authored
herself. -/
def selfClosedPR0 : RestSearchItem :=
  { number := 7
    htmlUrl := "https://example.test/o/r/pull/7"
    title := "My own change"
    state := "closed"
    userLogin := "alice"
    isPullRequest := true
    mergedAt := none
    createdAt := 100 }

/-! ## Helper lemmas -/

theorem Date.leb_refl (d : Date) : Date.leb d d = true := by
  simp [Date.leb]

theorem mem_dedupByKey {α β : Type} (key : α → β) [DecidableEq β]
    (l : List α) (seen : List β) (a : α) (h : a ∈ dedupByKey key l seen) :
    a ∈ l := by
  induction l generalizing seen with
  | nil => simp [dedupByKey] at h
  | cons x xs ih =>
    simp only [dedupByKey] at h
    split at h
    · exact List.mem_cons_of_mem _ (ih _ h)
    · rcases List.mem_cons.mp h with h1 | h2
      · exact h1 ▸ List.mem_cons_self _ _
      · exact List.mem_cons_of_mem _ (ih _ h2)

/-! ## Claims -/

/-- Claim C5: the date-window membership test of the report strategies
works at calendar-date granularity: it compares only the calendar date
written in the stamp against the inclusive start and end dates, so the
result does not depend on the time-of-day or offset fields of the stamp,
a boundary date is included whatever its time of day, and the two spec
instances evaluate as stated (the stamp of 2024-03-15T23:59:59Z is inside
the window 2024-03-15..2024-03-15 and outside 2024-03-15..2024-03-14). -/
theorem claim5_is_in_period_date_granularity :
    (∀ (s e : Date) (ts : Timestamp),
      ReportDataStrategy.is_in_period s e (some ts)
        = (Date.leb s ts.date && Date.leb ts.date e))
    ∧ (∀ (s e d : Date) (hh1 mm1 ss1 : Nat) (o1 : Int)
        (hh2 mm2 ss2 : Nat) (o2 : Int),
      ReportDataStrategy.is_in_period s e (some ⟨d, hh1, mm1, ss1, o1⟩)
        = ReportDataStrategy.is_in_period s e (some ⟨d, hh2, mm2, ss2, o2⟩))
    ∧ (∀ (d : Date) (hh mm ss : Nat) (o : Int),
      ReportDataStrategy.is_in_period d d (some ⟨d, hh, mm, ss, o⟩) = true)
    ∧ ReportDataStrategy.is_in_period ⟨2024, 3, 15⟩ ⟨2024, 3, 15⟩
        (some ⟨⟨2024, 3, 15⟩, 23, 59, 59, 0⟩) = true
    ∧ ReportDataStrategy.is_in_period ⟨2024, 3, 15⟩ ⟨2024, 3, 14⟩
        (some ⟨⟨2024, 3, 15⟩, 23, 59, 59, 0⟩) = false := by
  refine ⟨fun s e ts => rfl, fun s e d hh1 mm1 ss1 o1 hh2 mm2 ss2 o2 => rfl,
    fun d hh mm ss o => ?_, by decide, by decide⟩
  simp [ReportDataStrategy.is_in_period, Date.leb_refl]

/-- Claim C6: pull-request status classification, in both report builders:
a present merge timestamp yields merged regardless of state; otherwise a
CLOSED state (closed in the lowercase REST encoding) yields closed;
otherwise open. -/
theorem claim6_pr_status_classification :
    (∀ (ts state : String), ts ≠ "" → prStatus (some ts) state = "merged")
    ∧ prStatus none "CLOSED" = "closed"
    ∧ (∀ state : String, state ≠ "CLOSED" → prStatus none state = "open")
    ∧ (∀ (t : Nat) (state : String), restPRStatus (some t) state = "merged")
    ∧ restPRStatus none "closed" = "closed"
    ∧ (∀ state : String, state ≠ "closed" → restPRStatus none state = "open") := by
  refine ⟨fun ts state h => ?_, rfl, fun state h => ?_,
    fun t state => rfl, rfl, fun state h => ?_⟩
  · simp [prStatus, pyTruthyStr, h]
  · simp [prStatus, pyTruthyStr, h]
  · simp [restPRStatus, h]

/-- Witness for claim C6 at concrete inputs: an open PR with a merge
timestamp is merged, a closed one without is closed, and so on, in both
builders. -/
theorem claim6_witness :
    prStatus (some "2024-01-15T10:00:00Z") "OPEN" = "merged"
    ∧ prStatus none "CLOSED" = "closed"
    ∧ prStatus none "OPEN" = "open"
    ∧ restPRStatus (some 1705300000) "open" = "merged"
    ∧ restPRStatus none "closed" = "closed"
    ∧ restPRStatus none "open" = "open" :=
  ⟨claim6_pr_status_classification.1 _ _ (by decide),
    claim6_pr_status_classification.2.1,
    claim6_pr_status_classification.2.2.1 _ (by decide),
    claim6_pr_status_classification.2.2.2.1 _ _,
    claim6_pr_status_classification.2.2.2.2.1,
    claim6_pr_status_classification.2.2.2.2.2 _ (by decide)⟩

/-- Claim C8 counterexample: when the state file holds the JSON object
with the key last_run_at (the shape the claim asserts), the stored
timestamp is NOT returned: get_last_run reads only the key last_run and
yields Python None here, whatever the default watermark is. -/
theorem claim8_counterexample :
    ¬ (StateManager.get_last_run
        (FileState.object [("last_run_at", "2024-01-01T00:00:00+00:00")])
        "1999-12-31T12:00:00+00:00"
      = some "2024-01-01T00:00:00+00:00") := by
  decide

/-- Claim C8 (amended): the state file key is last_run, not last_run_at.
A missing or unparseable state file yields the default watermark of now
minus 24 hours rather than an error; a parsed object holding last_run
yields the stored timestamp; and a parsed object holding only last_run_at
yields Python None. -/
theorem claim8_amended_state_read :
    (∀ defaultIso : String,
      StateManager.get_last_run FileState.missing defaultIso = some defaultIso)
    ∧ (∀ defaultIso : String,
      StateManager.get_last_run FileState.corrupt defaultIso = some defaultIso)
    ∧ (∀ (ts defaultIso : String),
      StateManager.get_last_run (FileState.object [("last_run", ts)]) defaultIso
        = some ts)
    ∧ (∀ (ts defaultIso : String),
      StateManager.get_last_run (FileState.object [("last_run_at", ts)]) defaultIso
        = none) := by
  refine ⟨fun _ => rfl, fun _ => rfl, fun ts d => ?_, fun ts d => ?_⟩
  · simp [StateManager.get_last_run, pyDictGet]
  · simp only [StateManager.get_last_run, pyDictGet, List.foldl]
    rw [if_neg (by decide)]

/-- Claim C10: in the GraphQL maintainer strategy, an issue of a fetched
repository payload lands in issues_engaged exactly when it is not
self-authored, the username appears as author of at least one of its
fetched last comments, and the issue itself was updated inside the report
period.  The comment nodes of the fragment carry no timestamp, so the
date of the engaging comment is never consulted. -/
theorem claim10_issues_engaged_iff :
    ∀ (username : String) (s e : Date) (rd : ReportRepoData)
      (issue : ReportIssue),
      issue ∈ (MaintainerActivityStrategy.processRepo username s e rd).issues_engaged
      ↔ (issue ∈ rd.issues
          ∧ selfAuthored username issue.author = false
          ∧ issueCommentedByUser username issue = true
          ∧ ReportDataStrategy.is_in_period s e (some issue.updatedAt) = true) := by
  intro username s e rd issue
  simp only [MaintainerActivityStrategy.processRepo, List.mem_filter,
    Bool.and_eq_true, Bool.not_eq_true']
  tauto

/-- Claim C3 is the intent but not the code: the GraphQL report builder
runs only AuthoredActivityStrategy and leaves every maintainer_work
bucket empty for every input.  At the concrete scenario of fetch0 (alice
reviewed the non-authored pull request reviewedPR0 inside the period, as
witnessed by the maintainer strategy itself finding it), the built report
still carries empty maintainer work. -/
theorem claim3_maintainer_work_left_empty :
    (MaintainerActivityStrategy.run ⟨["o/r"], [], some "alice"⟩
        periodStart0 periodEnd0 fetch0).prs_reviewed = [reviewedPR0]
    ∧ (collect_data_graphql "alice" periodStart0 periodEnd0 ["o/r"] fetch0).maintainer_work
        = MaintainerBuckets.empty
    ∧ ∀ (username : String) (s e : Date) (repos : List String)
        (fetch : String → String → Option ReportRepoData),
        (collect_data_graphql username s e repos fetch).maintainer_work
          = MaintainerBuckets.empty := by
  refine ⟨by decide, rfl, fun _ _ _ _ _ => rfl⟩

/-- Claim C9: each strategy short-circuits on missing configuration.
With the username absent, or the relevant repository list empty, the
mention strategy returns the empty list and the two report strategies
return their all-empty result shapes, and they do so for every client
oracle alike: the result does not depend on the oracle, which is how the
embedding expresses that no API query is consulted. -/
theorem claim9_short_circuit_empty_config :
    (∀ (wa wm : List String) (sr : Option (List MentionNode)),
      MentionWatchStrategy.run ⟨wa, wm, none⟩ sr = [])
    ∧ (∀ (wa : List String) (u : Option String) (sr : Option (List MentionNode)),
      MentionWatchStrategy.run ⟨wa, [], u⟩ sr = [])
    ∧ (∀ (u : Option String) (s e : Date)
        (fetch : String → String → Option ReportRepoData),
      AuthoredActivityStrategy.run ⟨[], [], u⟩ s e fetch = ⟨[], []⟩)
    ∧ (∀ (wa wm : List String) (s e : Date)
        (fetch : String → String → Option ReportRepoData),
      AuthoredActivityStrategy.run ⟨wa, wm, none⟩ s e fetch = ⟨[], []⟩)
    ∧ (∀ (u : Option String) (s e : Date)
        (fetch : String → String → Option ReportRepoData),
      MaintainerActivityStrategy.run ⟨[], [], u⟩ s e fetch = MaintainerBuckets.empty)
    ∧ (∀ (wa wm : List String) (s e : Date)
        (fetch : String → String → Option ReportRepoData),
      MaintainerActivityStrategy.run ⟨wa, wm, none⟩ s e fetch
        = MaintainerBuckets.empty) := by
  refine ⟨fun wa wm sr => ?_, fun wa u sr => ?_, fun u s e fetch => ?_,
    fun wa wm s e fetch => ?_, fun u s e fetch => ?_, fun wa wm s e fetch => ?_⟩
  · simp [MentionWatchStrategy.run, pyTruthyStr]
  · simp [MentionWatchStrategy.run]
  · simp [AuthoredActivityStrategy.run, dedupByKey]
  · simp [AuthoredActivityStrategy.run, pyTruthyStr]
  · simp [MaintainerActivityStrategy.run, dedupByKey]
  · simp [MaintainerActivityStrategy.run, pyTruthyStr]

theorem all_flatMap_of {α β : Type} (l : List α) (g : α → List β) (p : β → Bool)
    (h : ∀ a, (g a).all p = true) : (l.flatMap g).all p = true := by
  simp only [List.all_eq_true, List.mem_flatMap]
  rintro x ⟨a, _, hx⟩
  exact List.all_eq_true.mp (h a) x hx

theorem repoBuckets_all_not_self (username : String) (s e : Date)
    (fetch : String → String → Option ReportRepoData) (r : String) :
    ((MaintainerActivityStrategy.repoBuckets username s e fetch r).prs_reviewed.all
      (fun pr => !selfAuthored username pr.author) = true)
    ∧ ((MaintainerActivityStrategy.repoBuckets username s e fetch r).prs_closed_merged.all
      (fun pr => !selfAuthored username pr.author) = true)
    ∧ ((MaintainerActivityStrategy.repoBuckets username s e fetch r).issues_engaged.all
      (fun i => !selfAuthored username i.author) = true)
    ∧ ((MaintainerActivityStrategy.repoBuckets username s e fetch r).issues_closed.all
      (fun i => !selfAuthored username i.author) = true) := by
  unfold MaintainerActivityStrategy.repoBuckets
  rcases hp : parseRepo r with _ | ⟨o, n⟩
  · exact ⟨rfl, rfl, rfl, rfl⟩
  · dsimp only
    rcases hf : fetch o n with _ | rd
    · exact ⟨rfl, rfl, rfl, rfl⟩
    · dsimp only
      refine ⟨?_, ?_, ?_, ?_⟩ <;>
      · simp only [MaintainerActivityStrategy.processRepo, List.all_eq_true,
          List.mem_filter, Bool.and_eq_true]
        tauto

theorem engagedPass_filter_self (u tag : String)
    (issues : List RestSearchItem) :
    ∀ d : List (Nat × EngagedValue),
    engagedPass u tag d (issues.filter (fun i => !(i.userLogin = u)))
      = engagedPass u tag d issues := by
  induction issues with
  | nil => intro d; rfl
  | cons i is ih =>
    intro d
    by_cases h : i.userLogin = u
    · have hstep : engagedAdd u tag d i = d := by simp [engagedAdd, h]
      rw [List.filter_cons_of_neg (by simp [h])]
      rw [show engagedPass u tag d (i :: is) = engagedPass u tag (engagedAdd u tag d i) is from rfl]
      rw [hstep]
      exact ih d
    · rw [List.filter_cons_of_pos (by simp [h])]
      rw [show engagedPass u tag d (i :: is) = engagedPass u tag (engagedAdd u tag d i) is from rfl]
      rw [show engagedPass u tag d (i :: is.filter (fun i => !(i.userLogin = u)))
            = engagedPass u tag (engagedAdd u tag d i) (is.filter (fun i => !(i.userLogin = u))) from rfl]
      exact ih (engagedAdd u tag d i)

/-- Claim C2 counterexample: the REST collector places a pull request the
requesting user authored herself into the prs_closed_merged maintainer
bucket.  With username alice and the single self-authored closed search
result selfClosedPR0, the first pass of the closed-merged collection
(which runs over the author search with no author exclusion) emits its
entry, labeled closed (author). -/
theorem claim2_counterexample :
    selfClosedPR0.userLogin = "alice"
    ∧ restPRsClosedMerged "alice" [selfClosedPR0] []
        = [(7, "https://example.test/o/r/pull/7", "My own change", "closed (author)")] := by
  decide

/-- Claim C2 (amended): self-authored items are never classified into any
maintainer bucket of the GraphQL maintainer strategy, nor into the
prs_reviewed and issues_engaged buckets of the REST collector (whose
output is unchanged when self-authored search results are removed from
its inputs); the prs_closed_merged and issues_closed passes of the REST
collector are not covered by the exclusion, as they intentionally also
report the closure of the requesting user's own items. -/
theorem claim2_amended_no_self_authored_maintainer_items :
    (∀ (config : Config) (s e : Date)
        (fetch : String → String → Option ReportRepoData),
      ((MaintainerActivityStrategy.run config s e fetch).prs_reviewed.all
        (fun pr => !selfAuthored (config.username.getD "") pr.author) = true)
      ∧ ((MaintainerActivityStrategy.run config s e fetch).prs_closed_merged.all
        (fun pr => !selfAuthored (config.username.getD "") pr.author) = true)
      ∧ ((MaintainerActivityStrategy.run config s e fetch).issues_engaged.all
        (fun i => !selfAuthored (config.username.getD "") i.author) = true)
      ∧ ((MaintainerActivityStrategy.run config s e fetch).issues_closed.all
        (fun i => !selfAuthored (config.username.getD "") i.author) = true))
    ∧ (∀ (u : String) (c r : List RestSearchItem),
      restPRsReviewed u c r
        = restPRsReviewed u (c.filter (fun pr => !(pr.userLogin = u)))
            (r.filter (fun pr => !(pr.userLogin = u))))
    ∧ (∀ (u : String) (c m a : List RestSearchItem),
      restIssuesEngaged u c m a
        = restIssuesEngaged u (c.filter (fun i => !(i.userLogin = u)))
            (m.filter (fun i => !(i.userLogin = u)))
            (a.filter (fun i => !(i.userLogin = u)))) := by
  refine ⟨fun config s e fetch => ?_, fun u c r => ?_, fun u c m a => ?_⟩
  · simp only [MaintainerActivityStrategy.run]
    split
    · exact ⟨rfl, rfl, rfl, rfl⟩
    · exact ⟨all_flatMap_of _ _ _
          (fun r => (repoBuckets_all_not_self _ s e fetch r).1),
        all_flatMap_of _ _ _
          (fun r => (repoBuckets_all_not_self _ s e fetch r).2.1),
        all_flatMap_of _ _ _
          (fun r => (repoBuckets_all_not_self _ s e fetch r).2.2.1),
        all_flatMap_of _ _ _
          (fun r => (repoBuckets_all_not_self _ s e fetch r).2.2.2)⟩
  · have h1 : List.filter (fun pr => pr.isPullRequest && !(pr.userLogin = u))
        (List.filter (fun pr => !(pr.userLogin = u)) c)
        = List.filter (fun pr => pr.isPullRequest && !(pr.userLogin = u)) c := by
      rw [List.filter_filter]
      refine List.filter_congr fun x _ => ?_
      cases hd : (decide (x.userLogin = u)) <;> cases hp : x.isPullRequest <;>
        simp [hd, hp]
    have h2 : List.filter (fun pr => !(pr.userLogin = u))
        (List.filter (fun pr => !(pr.userLogin = u)) r)
        = List.filter (fun pr => !(pr.userLogin = u)) r := by
      rw [List.filter_filter]
      refine List.filter_congr fun x _ => ?_
      cases hd : (decide (x.userLogin = u)) <;> simp [hd]
    unfold restPRsReviewed
    rw [h1, h2]
  · unfold restIssuesEngaged
    rw [engagedPass_filter_self, engagedPass_filter_self, engagedPass_filter_self]

theorem mem_watch_processRepo (lastRun : Nat) (rd : WatchRepoData)
    (i : InboxItem) (k : String) :
    (⟨i, k⟩ : TaggedItem) ∈ FullWatchStrategy.processRepo lastRun rd
    ↔ Strategy.is_new lastRun i.updatedAt = true
      ∧ ((k = "Issue" ∧ i ∈ rd.issues) ∨ (k = "PR" ∧ i ∈ rd.pullRequests)
          ∨ (k = "Discussion" ∧ i ∈ rd.discussions)) := by
  simp only [FullWatchStrategy.processRepo, List.mem_append, List.mem_map,
    List.mem_filter, TaggedItem.mk.injEq]
  constructor
  · rintro ((⟨a, ⟨ha, hn⟩, rfl, rfl⟩ | ⟨a, ⟨ha, hn⟩, rfl, rfl⟩)
      | ⟨a, ⟨ha, hn⟩, rfl, rfl⟩)
    · exact ⟨hn, Or.inl ⟨rfl, ha⟩⟩
    · exact ⟨hn, Or.inr (Or.inl ⟨rfl, ha⟩)⟩
    · exact ⟨hn, Or.inr (Or.inr ⟨rfl, ha⟩)⟩
  · rintro ⟨hn, (⟨rfl, hi⟩ | ⟨rfl, hi⟩ | ⟨rfl, hi⟩)⟩
    · exact Or.inl (Or.inl ⟨i, ⟨hi, hn⟩, rfl, rfl⟩)
    · exact Or.inl (Or.inr ⟨i, ⟨hi, hn⟩, rfl, rfl⟩)
    · exact Or.inr ⟨i, ⟨hi, hn⟩, rfl, rfl⟩

/-- Claim C4: the incremental watch filter is strictly greater-than on the
watermark: an item updated exactly at the watermark is not new, one
updated one second later is, and FullWatchStrategy.run emits a tagged
item exactly when its update instant strictly exceeds the watermark and
it is an issue, pull request or discussion node (tagged with that kind)
of a successfully fetched configured repository. -/
theorem claim4_watch_filter_strictly_after_watermark :
    (∀ t : Nat, Strategy.is_new t t = false ∧ Strategy.is_new t (t + 1) = true)
    ∧ ∀ (config : Config) (lastRun : Nat)
        (fetch : String → String → Option WatchRepoData)
        (i : InboxItem) (k : String),
      (⟨i, k⟩ : TaggedItem) ∈ FullWatchStrategy.run config lastRun fetch
      ↔ (Strategy.is_new lastRun i.updatedAt = true
          ∧ ∃ r ∈ config.watch_all, ∃ o n rd,
              parseRepo r = some (o, n) ∧ fetch o n = some rd
              ∧ ((k = "Issue" ∧ i ∈ rd.issues)
                  ∨ (k = "PR" ∧ i ∈ rd.pullRequests)
                  ∨ (k = "Discussion" ∧ i ∈ rd.discussions))) := by
  constructor
  · intro t
    constructor
    · simp [Strategy.is_new]
    · simp [Strategy.is_new]
  · intro config lastRun fetch i k
    simp only [FullWatchStrategy.run]
    split
    · rename_i hempty
      rw [List.isEmpty_iff] at hempty
      simp [hempty]
    · rw [List.mem_flatMap]
      constructor
      · rintro ⟨r, hr, hmem⟩
        rcases hp : parseRepo r with _ | ⟨o, n⟩
        · rw [hp] at hmem; simp at hmem
        · rw [hp] at hmem
          dsimp only at hmem
          rcases hf : fetch o n with _ | rd
          · rw [hf] at hmem; simp at hmem
          · rw [hf] at hmem
            dsimp only at hmem
            obtain ⟨hn, hd⟩ := (mem_watch_processRepo lastRun rd i k).mp hmem
            exact ⟨hn, r, hr, o, n, rd, hp, hf, hd⟩
      · rintro ⟨hn, r, hr, o, n, rd, hp, hf, hd⟩
        refine ⟨r, hr, ?_⟩
        rw [hp]
        dsimp only
        rw [hf]
        dsimp only
        exact (mem_watch_processRepo lastRun rd i k).mpr ⟨hn, hd⟩

theorem mem_collectPRCommitShas (prs : List RestSearchItem)
    (commitsOf : RestSearchItem → Option (List PRCommit)) (sha : String) :
    sha ∈ collectPRCommitShas prs commitsOf
    ↔ ∃ pr ∈ enumeratedPRs prs, ∃ cl, commitsOf pr = some cl
        ∧ sha ∈ cl.map (fun cm => cm.sha) := by
  simp only [collectPRCommitShas, List.mem_flatMap]
  constructor
  · rintro ⟨pr, hpr, hsha⟩
    rcases hc : commitsOf pr with _ | cl
    · rw [hc] at hsha; simp at hsha
    · rw [hc] at hsha
      exact ⟨pr, hpr, cl, hc, hsha⟩
  · rintro ⟨pr, hpr, cl, hc, hsha⟩
    refine ⟨pr, hpr, ?_⟩
    rw [hc]
    exact hsha

/-- Claim C7: in the REST reporter, a commit of the raw period commit
search is classified work in progress (kept by the orphan pass) exactly
when its sha was not observed in the commit list of any pull request the
authored pass fetched (over the deduplicated, newest-first enumerated
search results); in particular a sha appearing in any fetched commit list
is excluded. -/
theorem claim7_orphan_commit_classification :
    ∀ (prs : List RestSearchItem)
      (commitsOf : RestSearchItem → Option (List PRCommit))
      (rawCommits : List RestCommitItem) (c : RestCommitItem),
      c ∈ orphanCommits rawCommits (collectPRCommitShas prs commitsOf)
      ↔ (c ∈ rawCommits
          ∧ ¬ ∃ pr ∈ enumeratedPRs prs, ∃ cl, commitsOf pr = some cl
              ∧ c.sha ∈ cl.map (fun cm => cm.sha)) := by
  intro prs commitsOf rawCommits c
  have hcont : ∀ (l : List String) (s : String), (l.contains s = false) ↔ s ∉ l := by
    intro l s
    simp
  simp only [orphanCommits, List.mem_filter, Bool.not_eq_true']
  rw [hcont]
  constructor
  · rintro ⟨h1, h2⟩
    exact ⟨h1, fun hex => h2 ((mem_collectPRCommitShas prs commitsOf c.sha).mpr hex)⟩
  · rintro ⟨h1, h2⟩
    exact ⟨h1, fun hmem => h2 ((mem_collectPRCommitShas prs commitsOf c.sha).mp hmem)⟩

theorem filter_mapped_ne (d : List (String × RenderItem)) (k : String)
    (v : RenderItem) (u : String) (hne : u ≠ k) (hv : v.url = k)
    (h1 : ∀ p ∈ d, p.2.url = p.1) :
    ((d.map (fun p => if p.1 = k then (k, v) else p)).map Prod.snd).filter
        (fun it => it.url = u)
      = (d.map Prod.snd).filter (fun it => it.url = u) := by
  induction d with
  | nil => rfl
  | cons p ps ih =>
    have hp := h1 p (List.mem_cons_self _ _)
    have hps : ∀ q ∈ ps, q.2.url = q.1 :=
      fun q hq => h1 q (List.mem_cons_of_mem _ hq)
    by_cases hk : p.1 = k
    · have h2 : ¬ (v.url = u) := by
        rw [hv]
        exact fun h => hne h.symm
      have h3 : ¬ (p.2.url = u) := by
        rw [hp, hk]
        exact fun h => hne h.symm
      simp only [List.map_cons, if_pos hk, List.filter_cons]
      rw [if_neg (by simpa using h2), if_neg (by simpa using h3)]
      exact ih hps
    · simp only [List.map_cons, if_neg hk, List.filter_cons]
      by_cases hu : p.2.url = u
      · rw [if_pos (by simpa using hu), if_pos (by simpa using hu), ih hps]
      · rw [if_neg (by simpa using hu), if_neg (by simpa using hu), ih hps]

theorem filter_mapped_eq (d : List (String × RenderItem)) (k : String)
    (v : RenderItem) (hv : v.url = k)
    (h1 : ∀ p ∈ d, p.2.url = p.1) (h2 : (d.map Prod.fst).Nodup)
    (hk : ∃ p ∈ d, p.1 = k) :
    ((d.map (fun p => if p.1 = k then (k, v) else p)).map Prod.snd).filter
        (fun it => it.url = k) = [v] := by
  induction d with
  | nil => simp at hk
  | cons p ps ih =>
    have hp := h1 p (List.mem_cons_self _ _)
    have hps : ∀ q ∈ ps, q.2.url = q.1 :=
      fun q hq => h1 q (List.mem_cons_of_mem _ hq)
    have hnodup : (ps.map Prod.fst).Nodup := by
      simp only [List.map_cons, List.nodup_cons] at h2
      exact h2.2
    have hnotin : p.1 ∉ ps.map Prod.fst := by
      simp only [List.map_cons, List.nodup_cons] at h2
      exact h2.1
    by_cases hpk : p.1 = k
    · have htail : ∀ q ∈ ps, ¬ (q.1 = k) := by
        intro q hq hqe
        exact hnotin (by
          rw [hpk, ← hqe]
          exact List.mem_map_of_mem Prod.fst hq)
      have hzero :
          ((ps.map (fun p => if p.1 = k then (k, v) else p)).map Prod.snd).filter
            (fun it => it.url = k) = [] := by
        rw [List.filter_eq_nil_iff]
        intro x hx
        rw [List.map_map, List.mem_map] at hx
        obtain ⟨q, hq, hfq⟩ := hx
        have hfq2 : q.2 = x := by
          rw [← hfq]
          simp [if_neg (htail q hq)]
        rw [← hfq2]
        simp [hps q hq, htail q hq]
      simp only [List.map_cons, if_pos hpk, List.filter_cons]
      rw [if_pos (by simp [hv])]
      rw [show ((ps.map (fun p => if p.1 = k then (k, v) else p)).map Prod.snd).filter
            (fun it => it.url = k) = [] from hzero]
    · have hk2 : ∃ q ∈ ps, q.1 = k := by
        rcases hk with ⟨q, hq, hqe⟩
        rcases List.mem_cons.mp hq with rfl | hq2
        · exact absurd hqe hpk
        · exact ⟨q, hq2, hqe⟩
      simp only [List.map_cons, if_neg hpk, List.filter_cons]
      rw [if_neg (by
        simp only [decide_eq_true_eq]
        rw [hp]
        exact hpk)]
      exact ih hps hnodup hk2

theorem filter_snd_pyDictSet (d : List (String × RenderItem)) (k : String)
    (v : RenderItem) (u : String) (hv : v.url = k)
    (h1 : ∀ p ∈ d, p.2.url = p.1) (h2 : (d.map Prod.fst).Nodup) :
    ((pyDictSet d k v).map Prod.snd).filter (fun it => it.url = u)
      = if u = k then [v]
        else (d.map Prod.snd).filter (fun it => it.url = u) := by
  unfold pyDictSet
  by_cases hany : d.any (fun p => decide (p.1 = k)) = true
  · rw [if_pos hany]
    by_cases huk : u = k
    · rw [if_pos huk]
      subst huk
      exact filter_mapped_eq d u v hv h1 h2 (by simpa using hany)
    · rw [if_neg huk]
      exact filter_mapped_ne d k v u huk hv h1
  · rw [if_neg hany]
    have hnk : ∀ p ∈ d, ¬ (p.1 = k) := by
      intro p hp hpk
      exact hany (List.any_eq_true.mpr ⟨p, hp, by simp [hpk]⟩)
    rw [List.map_append, List.filter_append]
    by_cases huk : u = k
    · rw [if_pos huk]
      subst huk
      have hd : (d.map Prod.snd).filter (fun it => it.url = u) = [] := by
        rw [List.filter_eq_nil_iff]
        intro x hx
        rw [List.mem_map] at hx
        obtain ⟨q, hq, hfq⟩ := hx
        rw [← hfq]
        simp [h1 q hq, hnk q hq]
      rw [hd]
      simp [hv]
    · rw [if_neg huk]
      have hsing : (([(k, v)]).map Prod.snd).filter (fun it => it.url = u) = [] := by
        simp only [List.map_cons, List.map_nil, List.filter_cons, List.filter_nil]
        rw [if_neg (by
          simp only [decide_eq_true_eq]
          rw [hv]
          exact fun h => huk h.symm)]
      rw [hsing, List.append_nil]

theorem inv_pyDictSet (d : List (String × RenderItem)) (k : String)
    (v : RenderItem) (hv : v.url = k)
    (h1 : ∀ p ∈ d, p.2.url = p.1) (h2 : (d.map Prod.fst).Nodup) :
    (∀ p ∈ pyDictSet d k v, p.2.url = p.1)
    ∧ ((pyDictSet d k v).map Prod.fst).Nodup := by
  unfold pyDictSet
  by_cases hany : d.any (fun p => decide (p.1 = k)) = true
  · rw [if_pos hany]
    constructor
    · intro p hp
      rw [List.mem_map] at hp
      obtain ⟨q, hq, hfq⟩ := hp
      by_cases hqk : q.1 = k
      · rw [if_pos hqk] at hfq
        rw [← hfq]
        exact hv
      · rw [if_neg hqk] at hfq
        rw [← hfq]
        exact h1 q hq
    · have hkeys : (d.map (fun p => if p.1 = k then (k, v) else p)).map Prod.fst
          = d.map Prod.fst := by
        rw [List.map_map]
        refine List.map_congr_left fun p _ => ?_
        by_cases hqk : p.1 = k
        · simp [hqk]
        · simp [hqk]
      rw [hkeys]
      exact h2
  · rw [if_neg hany]
    have hnk : ∀ p ∈ d, ¬ (p.1 = k) := by
      intro p hp hpk
      exact hany (List.any_eq_true.mpr ⟨p, hp, by simp [hpk]⟩)
    constructor
    · intro p hp
      rcases List.mem_append.mp hp with h | h
      · exact h1 p h
      · rw [List.mem_singleton] at h
        rw [h]
        exact hv
    · rw [List.map_append]
      simp only [List.map_cons, List.map_nil]
      rw [List.nodup_append]
      refine ⟨h2, List.nodup_singleton k, ?_⟩
      intro a ha hb
      rw [List.mem_singleton] at hb
      rw [List.mem_map] at ha
      obtain ⟨p, hp, hpa⟩ := ha
      exact hnk p hp (by rw [hpa, hb])

theorem filter_snd_short (d : List (String × RenderItem)) (u : String)
    (h1 : ∀ p ∈ d, p.2.url = p.1) (h2 : (d.map Prod.fst).Nodup) :
    (d.map Prod.snd).filter (fun it => it.url = u) = []
    ∨ ∃ x, (d.map Prod.snd).filter (fun it => it.url = u) = [x] := by
  induction d with
  | nil => exact Or.inl rfl
  | cons p ps ih =>
    have hp := h1 p (List.mem_cons_self _ _)
    have hps : ∀ q ∈ ps, q.2.url = q.1 :=
      fun q hq => h1 q (List.mem_cons_of_mem _ hq)
    have hnodup : (ps.map Prod.fst).Nodup := by
      simp only [List.map_cons, List.nodup_cons] at h2
      exact h2.2
    have hnotin : p.1 ∉ ps.map Prod.fst := by
      simp only [List.map_cons, List.nodup_cons] at h2
      exact h2.1
    by_cases hu : p.2.url = u
    · refine Or.inr ⟨p.2, ?_⟩
      simp only [List.map_cons, List.filter_cons]
      rw [if_pos (by simp [hu])]
      have hzero : (ps.map Prod.snd).filter (fun it => it.url = u) = [] := by
        rw [List.filter_eq_nil_iff]
        intro x hx
        rw [List.mem_map] at hx
        obtain ⟨q, hq, hfq⟩ := hx
        rw [← hfq]
        simp only [decide_eq_true_eq]
        rw [hps q hq]
        intro hqu
        exact hnotin (by
          rw [show p.1 = q.1 from by rw [← hp, hu, ← hqu]]
          exact List.mem_map_of_mem Prod.fst hq)
      rw [hzero]
    · simp only [List.map_cons, List.filter_cons]
      rw [if_neg (by simp [hu])]
      exact ih hps hnodup

theorem uniqueItems_fold_spec (items : List RenderItem) :
    ∀ d : List (String × RenderItem),
      (∀ p ∈ d, p.2.url = p.1) → (d.map Prod.fst).Nodup →
      ∀ u : String,
      ((items.foldl (fun d it => pyDictSet d it.url it) d).map Prod.snd).filter
          (fun it => it.url = u)
        = (((d.map Prod.snd).filter (fun it => it.url = u))
            ++ (items.filter (fun it => it.url = u))).getLast?.toList := by
  induction items with
  | nil =>
    intro d h1 h2 u
    simp only [List.foldl_nil, List.filter_nil, List.append_nil]
    rcases filter_snd_short d u h1 h2 with h | ⟨x, h⟩ <;> rw [h] <;> rfl
  | cons it its ih =>
    intro d h1 h2 u
    simp only [List.foldl_cons]
    have hinv := inv_pyDictSet d it.url it rfl h1 h2
    rw [ih _ hinv.1 hinv.2 u]
    rw [filter_snd_pyDictSet d it.url it u rfl h1 h2]
    by_cases hu : u = it.url
    · rw [if_pos hu]
      rw [List.filter_cons, if_pos (by simp [hu])]
      rw [show ([it] ++ its.filter (fun x => decide (x.url = u)))
            = [it] ++ its.filter (fun x => decide (x.url = u)) from rfl]
      rw [List.getLast?_append, List.getLast?_append]
      rw [show (it :: its.filter (fun x => decide (x.url = u)))
            = [it] ++ its.filter (fun x => decide (x.url = u)) from rfl]
      rw [List.getLast?_append]
      rw [Option.or_assoc]
      rfl
    · rw [if_neg hu]
      rw [List.filter_cons, if_neg (by
        simp only [decide_eq_true_eq]
        exact fun h => hu h.symm)]

/-- Claim C1: the renderer deduplication is exactly last-write-wins by
url: for every input list and every url, the deduplicated output restricted
to that url is the singleton holding the last input item with that url
(and is empty when the url does not occur), so each url occurs exactly
once and the retained item is the last one in input order. -/
theorem claim1_renderer_dedup_last_write_wins :
    ∀ (items : List RenderItem) (u : String),
      (Renderer.uniqueItems items).filter (fun it => it.url = u)
        = ((items.filter (fun it => it.url = u)).getLast?).toList := by
  intro items u
  unfold Renderer.uniqueItems
  have h := uniqueItems_fold_spec items [] (by simp) (by simp) u
  simpa using h
